import Mathlib

/-!
Shallow embedding of the club-capelli storefront core: the cart reducer and
cart API bridge (contexts/cart-context), the product-detail add-to-cart
handler, and the products API route (GET filter construction and summary,
POST/PUT variant aggregation).

JavaScript numbers are modelled as `Int`; optional fields as `Option`;
JS truthiness of a number is `≠ 0` and of an optional number is
`isSome ∧ ≠ 0`.
-/

namespace ClubCapelli

/-- JS `a || b` on numbers: `a` when truthy (non-zero), else `b`. -/
def jsOr (a b : Int) : Int := if a ≠ 0 then a else b

/-- JS `a || b` on strings: `a` when truthy (non-empty), else `b`. -/
def jsOrStr (a b : String) : String := if a ≠ "" then a else b

/-- JS truthiness of an optional number field (`undefined`, `0` falsy). -/
def truthy : Option Int → Bool
  | none => false
  | some n => n != 0

/-- A cart line item (`CartItem` in contexts/cart-context). -/
structure CartItem where
  id : String
  name : String
  price : Int
  image : String
  stock : Option Int := none
  quantity : Option Int := none
deriving DecidableEq, Repr

/-- `CartState` from contexts/cart-context. -/
structure CartState where
  items : List CartItem
deriving DecidableEq, Repr

/-- The reducer's action type (`CartAction`). -/
inductive CartAction where
  | addItem (payload : CartItem) (quantityToAdd : Int)
  | removeItem (id : String)
  | updateQuantity (id : String) (quantity : Int)
  | clearCart
  | setCart (items : List CartItem)
deriving DecidableEq, Repr

/-- `cartReducer` from contexts/cart-context, match for match with the
switch statement.  `?? 0` becomes `Option.getD 0`; the stock guards use
JS truthiness of the `stock` field. -/
def cartReducer (state : CartState) (action : CartAction) : CartState :=
  match action with
  | .addItem payload quantityToAdd =>
    match state.items.find? (fun item => item.id == payload.id) with
    | some existingItem =>
      let newQuantity := existingItem.quantity.getD 0 + quantityToAdd
      if truthy existingItem.stock && decide (newQuantity > existingItem.stock.getD 0) then
        state
      else
        { state with
          items := state.items.map (fun item =>
            if item.id == payload.id then { item with quantity := some newQuantity } else item) }
    | none =>
      if truthy payload.stock && decide (quantityToAdd > payload.stock.getD 0) then
        state
      else
        { state with items := state.items ++ [{ payload with quantity := some quantityToAdd }] }
  | .removeItem id =>
    { state with items := state.items.filter (fun item => item.id != id) }
  | .updateQuantity id quantity =>
    let existingItem := state.items.find? (fun item => item.id == id)
    if quantity ≤ 0 then
      { state with items := state.items.filter (fun item => item.id != id) }
    else if (match existingItem with
             | some e => decide (quantity < e.quantity.getD 0)
             | none => false) then
      { state with
        items := state.items.map (fun item =>
          if item.id == id then { item with quantity := some quantity } else item) }
    else if (match existingItem with
             | some e => truthy e.stock && decide (e.quantity.getD 0 < e.stock.getD 0)
             | none => false) then
      { state with
        items := state.items.map (fun item =>
          if item.id == id then { item with quantity := some quantity } else item) }
    else
      { state with items := state.items }
  | .clearCart => { items := [] }
  | .setCart items => { state with items := items }

/-! ### Cart API bridge (contexts/cart-context) -/

/-- One line item of the external cart representation. -/
structure ApiCartItem where
  id : String
  title : String
  unit_price : Int
  quantity : Int
  image : Option String := none
deriving DecidableEq, Repr

/-- The argument shape of `transformApiCartToCartItems`. -/
structure ApiCart where
  items : List ApiCartItem
deriving DecidableEq, Repr

/-- `transformApiCartToCartItems` from contexts/cart-context: maps each
external item to a cart line (`title`→`name`, `unit_price`→`price`,
`image || ""`); no `stock` key appears in the produced object. -/
def transformApiCartToCartItems (apiCart : ApiCart) : List CartItem :=
  apiCart.items.map (fun item =>
    { id := item.id
      name := item.title
      price := item.unit_price
      image := (match item.image with
                | some s => jsOrStr s ""
                | none => "")
      quantity := some item.quantity })

/-- The parsed body of the `/api/cart` response: `products` is `some` when
the body carries an array under that key, `none` otherwise. -/
structure ApiCartBody where
  products : Option (List ApiCartItem)
deriving DecidableEq, Repr

/-- Outcome of the `fetch`+`json()` pair in `getCartFromApi`: either a
status with a parsed (or unparseable) body, or a network error. -/
inductive FetchOutcome where
  | success (status : Nat) (body : Option ApiCartBody)
  | networkError
deriving DecidableEq, Repr

/-- `getCartFromApi` from contexts/cart-context, as a function of the fetch
outcome.  A parse failure or network failure lands in the catch block and
returns `[]`; a status other than 200/404 throws and is likewise caught. -/
def getCartFromApi : FetchOutcome → List CartItem
  | .networkError => []
  | .success status body =>
    match body with
    | none => []
    | some apiCart =>
      if status == 200 || status == 404 then
        match apiCart.products with
        | some products =>
          if products.length > 0 then transformApiCartToCartItems ⟨products⟩ else []
        | none => []
      else []

/-! ### Product detail view (app/products/[id]/page) -/

/-- The variant fields the detail page reads. -/
structure VariantView where
  variant_id : Nat
  stock_total : Int
  image_url : String
deriving DecidableEq, Repr

/-- The product fields the detail page reads. -/
structure ProductView where
  id : String
  name : String
  price : Int
  variants : List VariantView
deriving DecidableEq, Repr

/-- Observable outcome of `handleAddToCart`: an early return with no toast,
an error toast without calling the cart store, or an `addItem` call. -/
inductive AddToCartResult where
  | noAction
  | outOfStockToast
  | insufficientStockToast (available : Int)
  | added (item : CartItem) (quantity : Int)
deriving DecidableEq, Repr

/-- `handleAddToCart` from the product detail page.
`availableStock = selectedVariantData?.stock_total || 0`; the synthetic
line id is the template string of product id and variant id. -/
def handleAddToCart (product : Option ProductView) (selectedVariant : Nat)
    (quantity : Int) : AddToCartResult :=
  let selectedVariantData := product.bind (fun p => p.variants[selectedVariant]?)
  let availableStock := jsOr (match selectedVariantData with
                              | some v => v.stock_total
                              | none => 0) 0
  match product, selectedVariantData with
  | some p, some v =>
    if availableStock = 0 then .outOfStockToast
    else if quantity > availableStock then .insufficientStockToast availableStock
    else .added
      { id := p.id ++ "-" ++ Nat.repr v.variant_id
        name := p.name ++ " - Color " ++ Nat.repr (selectedVariant + 1)
        price := p.price
        image := jsOrStr v.image_url "/placeholder.svg"
        stock := some availableStock } quantity
  | _, _ => .noAction

/-! ### Products API route: GET filter and summary -/

/-- A stored product document, restricted to the fields the GET handler
queries.  `mongoId` stands for `_id` (used only as sort tie-break). -/
structure ProductDoc where
  mongoId : Int
  name : String
  price : Int
  salePrice : Option Int
  quantity : Option Int
  category : String
deriving DecidableEq, Repr

/-- The value held under the filter's `$or` key.  The GET handler stores
either the name-regex disjunction or the maxPrice disjunction there. -/
inductive OrClause where
  | nameRegex (q : String)
  | maxPriceOr (maxPrice : Int)
deriving DecidableEq, Repr

/-- The filter object built by the GET handler. -/
structure MongoFilter where
  orClause : Option OrClause
  category : Option String
deriving DecidableEq, Repr

/-- The filter construction in GET: `q` installs a name `$or`; `category`
adds a field; a truthy `maxPrice` assigns `filter.$or`, overwriting any
`$or` already present. -/
def buildFilter (q : String) (category : String) (maxPrice : Option Int) : MongoFilter :=
  let filter : MongoFilter :=
    if q ≠ "" then { orClause := some (.nameRegex q), category := none }
    else { orClause := none, category := none }
  let filter := if category ≠ "" then { filter with category := some category } else filter
  match maxPrice with
  | some m => if m ≠ 0 then { filter with orClause := some (.maxPriceOr m) } else filter
  | none => filter

/-- Whether `needle` occurs as a contiguous run inside `hay`. -/
def substringSearch (needle : List Char) : List Char → Bool
  | [] => needle.isEmpty
  | c :: rest => needle.isPrefixOf (c :: rest) || substringSearch needle rest

/-- Case-insensitive substring match, the semantics of
`{ $regex: q, $options: "i" }` for a literal pattern. -/
def containsCI (hay needle : String) : Bool :=
  substringSearch (needle.data.map Char.toLower) (hay.data.map Char.toLower)

/-- Semantics of the `$or` clause on one document.  The maxPrice branch is
`{salePrice: {$gt: 0, $lte: m}} OR ((salePrice = 0 or absent) AND price <= m)`. -/
def matchesOrClause (p : ProductDoc) : OrClause → Bool
  | .nameRegex q => containsCI p.name q
  | .maxPriceOr m =>
    (match p.salePrice with
     | some s => decide (s > 0) && decide (s ≤ m)
     | none => false)
    || ((match p.salePrice with
         | some s => decide (s = 0)
         | none => true)
        && decide (p.price ≤ m))

/-- Whether a document matches the GET filter. -/
def matchesFilter (f : MongoFilter) (p : ProductDoc) : Bool :=
  (match f.orClause with
   | none => true
   | some oc => matchesOrClause p oc)
  && (match f.category with
      | none => true
      | some c => p.category == c)

/-- The `summary` counts of GET, each a `countDocuments` over the whole
collection: `{quantity: {$gt: 0}}`, `{quantity: 0}`, and
`{salePrice: {$ne: 0}, $expr: {$lt: ["$salePrice", "$price"]}}` (a missing
`salePrice` satisfies `$ne: 0` and compares below any number). -/
structure Summary where
  inStock : Nat
  outOfStock : Nat
  discounted : Nat
deriving DecidableEq, Repr

/-- Computes the three catalog-wide counts of GET's `summary`. -/
def summaryOf (catalog : List ProductDoc) : Summary :=
  { inStock := (catalog.filter (fun p => match p.quantity with
      | some n => decide (n > 0)
      | none => false)).length
    outOfStock := (catalog.filter (fun p => p.quantity == some 0)).length
    discounted := (catalog.filter (fun p =>
      (match p.salePrice with
       | some s => s != 0
       | none => true)
      && (match p.salePrice with
          | some s => decide (s < p.price)
          | none => true))).length }

/-- The query parameters of GET, before clamping and trimming. -/
structure ListParams where
  page : Int := 1
  limit : Int := 12
  q : String := ""
  category : String := ""
  priceFilter : String := ""
  maxPrice : Option Int := none
deriving Repr

/-- The GET response payload (fields the claims mention). -/
structure ListResponse where
  items : List ProductDoc
  total : Nat
  page : Int
  limit : Int
  summary : Summary
deriving Repr

/-- The semantics of `String.trim`: drop whitespace from both ends. -/
def trimString (s : String) : String :=
  ⟨((s.data.dropWhile Char.isWhitespace).reverse.dropWhile Char.isWhitespace).reverse⟩

/-- Insert into a list sorted by `le` (used to model the store's sort). -/
def insertSorted (le : ProductDoc → ProductDoc → Bool) (x : ProductDoc) :
    List ProductDoc → List ProductDoc
  | [] => [x]
  | y :: ys => if le x y then x :: y :: ys else y :: insertSorted le x ys

/-- Sort by `le` (insertion sort, modelling the store's ordered read). -/
def sortDocs (le : ProductDoc → ProductDoc → Bool) : List ProductDoc → List ProductDoc
  | [] => []
  | x :: xs => insertSorted le x (sortDocs le xs)

/-- Sort comparator: `{price: 1, _id: -1}` / `{price: -1, _id: -1}` /
default `{_id: -1}`. -/
def sortLe (priceFilter : String) (a b : ProductDoc) : Bool :=
  if priceFilter = "low-to-high" then
    decide (a.price < b.price) || (a.price == b.price && decide (b.mongoId ≤ a.mongoId))
  else if priceFilter = "high-to-low" then
    decide (b.price < a.price) || (a.price == b.price && decide (b.mongoId ≤ a.mongoId))
  else
    decide (b.mongoId ≤ a.mongoId)

/-- The GET handler: clamp page and limit, trim the string parameters,
build and apply the filter, sort, paginate, and attach the catalog-wide
summary. -/
def listProducts (catalog : List ProductDoc) (params : ListParams) : ListResponse :=
  let page := max 1 params.page
  let limit := min 100 (max 1 params.limit)
  let filter := buildFilter (trimString params.q) (trimString params.category) params.maxPrice
  let filtered := catalog.filter (matchesFilter filter)
  let sorted := sortDocs (sortLe (trimString params.priceFilter)) filtered
  { items := (sorted.drop ((page - 1) * limit).toNat).take limit.toNat
    total := filtered.length
    page := page
    limit := limit
    summary := summaryOf catalog }

/-! ### Products API route: variant aggregation (POST and PUT) -/

/-- A variant record as supplied by the caller of POST/PUT. -/
structure RawVariant where
  variant_id : Option Int := none
  price : Int
  promotional_price : Int
  stock_total : Int
  visible : Bool := true
deriving DecidableEq, Repr

/-- A variant after the `map` in POST/PUT added `effective_price` and a
definite `variant_id`. -/
structure ProcessedVariant where
  variant_id : Int
  price : Int
  promotional_price : Int
  effective_price : Int
  stock_total : Int
  visible : Bool
deriving DecidableEq, Repr

/-- The per-variant step of the aggregation map: `effective_price` is the
promotional price when positive, else the price; `variant_id` falls back
to a generated value (`Date.now() + Math.random()`, modelled by `gen`)
when absent or zero. -/
def processVariant (gen : Int) (v : RawVariant) : ProcessedVariant :=
  { variant_id := jsOr (v.variant_id.getD 0) gen
    price := v.price
    promotional_price := v.promotional_price
    effective_price := if v.promotional_price > 0 then v.promotional_price else v.price
    stock_total := v.stock_total
    visible := v.visible }

/-- The aggregation map over the variant list from position `i` on;
`gen` supplies the generated id for each position. -/
def processVariantsAux (gen : Nat → Int) (i : Nat) : List RawVariant → List ProcessedVariant
  | [] => []
  | v :: vs => processVariant (gen i) v :: processVariantsAux gen (i + 1) vs

/-- The aggregation map over the variant list; `gen` supplies the
generated id for each position. -/
def processVariants (gen : Nat → Int) (vs : List RawVariant) : List ProcessedVariant :=
  processVariantsAux gen 0 vs

/-- `Math.min(...)` over a list; the `[]` case never arises behind the
`length > 0` guard (JS would give `Infinity`). -/
def mathMin : List Int → Int
  | [] => 0
  | x :: xs => xs.foldl min x

/-- `totalStock = processedVariants.reduce((sum, v) => sum + (v.stock_total || 0), 0)`. -/
def totalStockOf (pvs : List ProcessedVariant) : Int :=
  pvs.foldl (fun sum v => sum + jsOr v.stock_total 0) 0

/-- `minPrice`: the minimum of `v.effective_price || v.price` over the
processed variants when non-empty, else the caller-supplied price. -/
def minPriceOf (pvs : List ProcessedVariant) (fallbackPrice : Int) : Int :=
  if pvs.length > 0 then mathMin (pvs.map (fun v => jsOr v.effective_price v.price))
  else fallbackPrice

/-- The derived product fields written by POST and PUT. -/
structure AggregatedFields where
  price : Int
  salePrice : Int
  stock : Int
  quantity : Int
deriving DecidableEq, Repr

/-- The variant aggregation shared by POST and PUT: process the variants,
then set `price`/`salePrice` to the minimum and `stock`/`quantity` to the
total. -/
def variantAggregator (gen : Nat → Int) (variants : List RawVariant)
    (topLevelPrice : Int) : AggregatedFields :=
  let processed := processVariants gen variants
  let totalStock := totalStockOf processed
  let minPrice := minPriceOf processed topLevelPrice
  { price := minPrice, salePrice := minPrice, stock := totalStock, quantity := totalStock }

/-- The spec's per-variant effective price, on raw variants. -/
def effectivePrice (v : RawVariant) : Int :=
  if v.promotional_price > 0 then v.promotional_price else v.price

/-! ### Auxiliary definitions used by the verification -/

/-- The cart-line invariant of the data model: `quantity ≤ stock` whenever
`stock` is defined and non-zero, and every line has positive quantity. -/
def cartLineInvariant (s : CartState) : Bool :=
  s.items.all (fun item =>
    (!truthy item.stock || decide (item.quantity.getD 0 ≤ item.stock.getD 0))
    && decide (0 < item.quantity.getD 0))

/-- Well-formed cart state: line ids are pairwise distinct (the data
model's uniqueness) and the line invariant holds. -/
def cartWF (s : CartState) : Prop :=
  (s.items.map CartItem.id).Nodup ∧ cartLineInvariant s = true

/-- Decimal digit value of a digit character (inverse of `Nat.digitChar`
on 0–9). -/
def decodeDigit (c : Char) : Nat :=
  if c = '0' then 0 else if c = '1' then 1 else if c = '2' then 2
  else if c = '3' then 3 else if c = '4' then 4 else if c = '5' then 5
  else if c = '6' then 6 else if c = '7' then 7 else if c = '8' then 8
  else 9

/-- Value of a decimal digit string, most significant digit first. -/
def decodeDigits (l : List Char) : Nat :=
  l.foldl (fun acc c => acc * 10 + decodeDigit c) 0

/-- A cart payload with a defined stock of 0 (JS-falsy). -/
def zeroStockPayload : CartItem :=
  { id := "a", name := "A", price := 10, image := "", stock := some 0 }

/-- A cart line with quantity 1 and stock 3. -/
def lowQuantityLine : CartItem :=
  { id := "a", name := "A", price := 10, image := "", stock := some 3, quantity := some 1 }

/-- A product document named "b", base price 40, no discount. -/
def cheapDocB : ProductDoc :=
  { mongoId := 1, name := "b", price := 40, salePrice := some 0, quantity := some 1,
    category := "" }

/-- A visible raw variant with effective price 100. -/
def visibleVariant100 : RawVariant :=
  { variant_id := some 1, price := 100, promotional_price := 0, stock_total := 5,
    visible := true }

/-- A hidden raw variant with effective price 10. -/
def hiddenVariant10 : RawVariant :=
  { variant_id := some 2, price := 10, promotional_price := 0, stock_total := 2,
    visible := false }

/-- The aggregation scenario of spec §8: promotional 80 beats 100; the
second variant has no promotion and empty stock. -/
def scenarioVariants : List RawVariant :=
  [{ variant_id := some 1, price := 100, promotional_price := 80, stock_total := 5 },
   { variant_id := some 2, price := 120, promotional_price := 0, stock_total := 0 }]

/-- A sample external cart line. -/
def sampleApiItem : ApiCartItem :=
  { id := "x", title := "X", unit_price := 7, quantity := 2 }

/-- A sample product page with two variants of the same product. -/
def sampleProductView : ProductView :=
  { id := "p", name := "P", price := 100,
    variants := [{ variant_id := 11, stock_total := 4, image_url := "" },
                 { variant_id := 12, stock_total := 0, image_url := "u" }] }

/-- A cart line as hydrated from the remote cart (no stock). -/
def hydratedLine : CartItem :=
  { id := "x", name := "X", price := 7, image := "", quantity := some 2 }

/-- A payload that targets the hydrated line's id. -/
def addXPayload : CartItem :=
  { id := "x", name := "Y", price := 7, image := "" }

/-! ## Helper lemmas -/

lemma jsOr_zero (a : Int) : jsOr a 0 = a := by
  unfold jsOr; split <;> omega

lemma jsOrStr_empty (s : String) : jsOrStr s "" = s := by
  unfold jsOrStr; split <;> simp_all

lemma imageField_getD (o : Option String) :
    (match o with
     | some s => jsOrStr s ""
     | none => "") = o.getD "" := by
  cases o <;> simp [jsOrStr_empty]

/-! ## C2: UpdateQuantity branch semantics -/

/-- C2: `UpdateQuantity(id, q)` removes the line when `q ≤ 0`; applies the
update when the line exists and `q` is strictly less than its quantity;
applies the update — with no check of `q` against stock — when the line
exists, has truthy stock, and its current quantity is strictly below that
stock (so `{quantity 1, stock 3}` updated to 5 yields 5); and returns the
state unchanged in every other case. -/
theorem updateQuantity_branch_semantics :
    (∀ (s : CartState) (id : String) (q : Int), q ≤ 0 →
       (cartReducer s (.updateQuantity id q)).items
         = s.items.filter (fun item => item.id != id))
  ∧ (∀ (s : CartState) (id : String) (q : Int) (e : CartItem), 0 < q →
       s.items.find? (fun item => item.id == id) = some e →
       q < e.quantity.getD 0 →
       (cartReducer s (.updateQuantity id q)).items
         = s.items.map (fun item =>
             if item.id == id then { item with quantity := some q } else item))
  ∧ (∀ (s : CartState) (id : String) (q : Int) (e : CartItem), 0 < q →
       s.items.find? (fun item => item.id == id) = some e →
       ¬ q < e.quantity.getD 0 →
       truthy e.stock = true → e.quantity.getD 0 < e.stock.getD 0 →
       (cartReducer s (.updateQuantity id q)).items
         = s.items.map (fun item =>
             if item.id == id then { item with quantity := some q } else item))
  ∧ (∀ (s : CartState) (id : String) (q : Int), 0 < q →
       (∀ e, s.items.find? (fun item => item.id == id) = some e →
          ¬ q < e.quantity.getD 0
          ∧ ¬(truthy e.stock = true ∧ e.quantity.getD 0 < e.stock.getD 0)) →
       cartReducer s (.updateQuantity id q) = s)
  ∧ (cartReducer { items := [lowQuantityLine] } (.updateQuantity "a" 5)).items
      = [{ lowQuantityLine with quantity := some 5 }] := by
  refine ⟨?_, ?_, ?_, ?_, by decide⟩
  · intro s id q hq
    simp [cartReducer, hq]
  · intro s id q e hq hfind hlt
    have h0 : ¬ q ≤ 0 := by omega
    simp [cartReducer, h0, hfind, hlt]
  · intro s id q e hq hfind hlt hstock hbelow
    have h0 : ¬ q ≤ 0 := by omega
    simp [cartReducer, h0, hfind, hlt, hstock, hbelow]
  · intro s id q hq hno
    have h0 : ¬ q ≤ 0 := by omega
    cases hfind : s.items.find? (fun item => item.id == id) with
    | none => simp [cartReducer, h0, hfind]
    | some e =>
      obtain ⟨h1, h2⟩ := hno e hfind
      have h3 : ¬(truthy e.stock = true ∧ e.quantity.getD 0 < e.stock.getD 0) := h2
      cases ht : truthy e.stock with
      | false => simp [cartReducer, h0, hfind, h1, ht]
      | true =>
        have h4 : ¬ e.quantity.getD 0 < e.stock.getD 0 := fun hc => h3 ⟨ht, hc⟩
        simp [cartReducer, h0, hfind, h1, ht, h4]

/-! ## C7: remote cart fetch -/

/-- C7: a 200 or 404 response parses into line items via the bridge
transform (which keeps `id` and `quantity`, maps `title` to `name`,
`unit_price` to `price`, and a missing `image` to `""`), giving `[]` when
the body carries no items; any other status, unparseable body, or network
failure yields `[]`. -/
theorem getCartFromApi_semantics :
    (∀ (status : Nat) (body : ApiCartBody), status = 200 ∨ status = 404 →
       getCartFromApi (.success status (some body))
         = transformApiCartToCartItems ⟨body.products.getD []⟩)
  ∧ (∀ items : List ApiCartItem,
       (transformApiCartToCartItems ⟨items⟩).map CartItem.id = items.map ApiCartItem.id
       ∧ (transformApiCartToCartItems ⟨items⟩).map CartItem.name = items.map ApiCartItem.title
       ∧ (transformApiCartToCartItems ⟨items⟩).map CartItem.price
           = items.map ApiCartItem.unit_price
       ∧ (transformApiCartToCartItems ⟨items⟩).map CartItem.quantity
           = items.map (fun j => some j.quantity)
       ∧ (transformApiCartToCartItems ⟨items⟩).map CartItem.image
           = items.map (fun j => j.image.getD ""))
  ∧ (∀ (status : Nat) (body : Option ApiCartBody), status ≠ 200 → status ≠ 404 →
       getCartFromApi (.success status body) = [])
  ∧ (∀ status : Nat, getCartFromApi (.success status none) = [])
  ∧ getCartFromApi .networkError = [] := by
  refine ⟨?_, ?_, ?_, ?_, rfl⟩
  · intro status body h
    have hst : (status == 200 || status == 404) = true := by
      rcases h with rfl | rfl <;> rfl
    cases hp : body.products with
    | none => simp [getCartFromApi, hst, hp, transformApiCartToCartItems]
    | some products =>
      cases products with
      | nil => simp [getCartFromApi, hst, hp, transformApiCartToCartItems]
      | cons a l => simp [getCartFromApi, hst, hp]
  · intro items
    refine ⟨?_, ?_, ?_, ?_, ?_⟩ <;>
      simp [transformApiCartToCartItems, List.map_map, Function.comp, imageField_getD]
  · intro status body h200 h404
    have hst : (status == 200 || status == 404) = false := by
      simp [h200, h404]
    cases body with
    | none => simp [getCartFromApi]
    | some apiCart => simp [getCartFromApi, hst]
  · intro status
    cases status <;> rfl

/-! ## C9: summary is catalog-wide -/

/-- C9: the GET summary counts in-stock (`quantity > 0`), out-of-stock
(`quantity = 0`) and discounted products over the whole catalog, so two
requests against the same catalog return identical summaries regardless of
page, limit, query, category, priceFilter and maxPrice. -/
theorem summary_independent_of_params (catalog : List ProductDoc) (p₁ p₂ : ListParams) :
    (listProducts catalog p₁).summary = (listProducts catalog p₂).summary
    ∧ (listProducts catalog p₁).summary = summaryOf catalog
    ∧ (summaryOf catalog).inStock = (catalog.filter (fun p =>
        match p.quantity with
        | some n => decide (n > 0)
        | none => false)).length
    ∧ (summaryOf catalog).outOfStock = (catalog.filter (fun p => p.quantity == some 0)).length
    ∧ (summaryOf catalog).discounted = (catalog.filter (fun p =>
        (match p.salePrice with
         | some s => s != 0
         | none => true)
        && (match p.salePrice with
            | some s => decide (s < p.price)
            | none => true))).length :=
  ⟨rfl, rfl, rfl, rfl, rfl⟩

/-! ## C10: bridged lines have no stock, so AddItem is unbounded on them -/

/-- C10: every line produced by the bridge transform (hence every line
hydrated via `getCartFromApi`) has an undefined `stock`; an AddItem
targeting an existing line whose stock is undefined is always applied,
however large the resulting quantity. -/
theorem bridge_lines_unlimited :
    (∀ (apiCart : ApiCart) (item : CartItem),
       item ∈ transformApiCartToCartItems apiCart → item.stock = none)
  ∧ (∀ (outcome : FetchOutcome) (item : CartItem),
       item ∈ getCartFromApi outcome → item.stock = none)
  ∧ (∀ (s : CartState) (p : CartItem) (q : Int) (e : CartItem),
       s.items.find? (fun item => item.id == p.id) = some e →
       e.stock = none →
       (cartReducer s (.addItem p q)).items
         = s.items.map (fun item =>
             if item.id == p.id then { item with quantity := some (e.quantity.getD 0 + q) }
             else item)) := by
  have htrans : ∀ (apiCart : ApiCart) (item : CartItem),
      item ∈ transformApiCartToCartItems apiCart → item.stock = none := by
    intro apiCart item hmem
    obtain ⟨j, _, rfl⟩ := List.mem_map.mp hmem
    rfl
  refine ⟨htrans, ?_, ?_⟩
  · intro outcome item hmem
    cases outcome with
    | networkError => cases hmem
    | success status body =>
      cases body with
      | none => cases hmem
      | some apiCart =>
        by_cases hst : (status == 200 || status == 404) = true
        · cases hp : apiCart.products with
          | none => simp [getCartFromApi, hst, hp] at hmem
          | some products =>
            by_cases hlen : products.length > 0
            · simp [getCartFromApi, hst, hp, hlen] at hmem
              exact htrans ⟨products⟩ item hmem
            · simp [getCartFromApi, hst, hp, hlen] at hmem
        · have hst' : (status == 200 || status == 404) = false := by
            simpa using hst
          simp [getCartFromApi, hst'] at hmem
  · intro s p q e hfind hstock
    simp [cartReducer, hfind, hstock, truthy]

/-- Witness for C2 at the spec's own scenario: branch three applies the
update 1 → 5 although 5 exceeds the stock of 3. -/
theorem updateQuantity_branch_semantics_witness :
    (cartReducer { items := [lowQuantityLine] } (.updateQuantity "a" 5)).items
      = [lowQuantityLine].map (fun item =>
          if item.id == "a" then { item with quantity := some (5 : Int) } else item) :=
  updateQuantity_branch_semantics.2.2.1 { items := [lowQuantityLine] } "a" 5
    lowQuantityLine (by decide) rfl (by decide) (by decide) (by decide)

/-- Witness for C7 at a concrete 200 response with one item. -/
theorem getCartFromApi_semantics_witness :
    getCartFromApi (.success 200 (some ⟨some [sampleApiItem]⟩))
      = transformApiCartToCartItems ⟨[sampleApiItem]⟩ :=
  getCartFromApi_semantics.1 200 ⟨some [sampleApiItem]⟩ (Or.inl rfl)

/-- Witness for C10: adding 100 to a hydrated line with quantity 2 and no
stock is applied, yielding quantity 102. -/
theorem bridge_lines_unlimited_witness :
    (cartReducer { items := [hydratedLine] } (.addItem addXPayload 100)).items
      = [{ hydratedLine with quantity := some 102 }] := by
  have h := bridge_lines_unlimited.2.2 { items := [hydratedLine] } addXPayload 100
    hydratedLine rfl rfl
  rw [h]; decide

/-- Counterexample to C1 as stated: with a *defined* stock of 0 the guard
`existingItem.stock && ...` is falsy, so an AddItem whose new quantity (3)
exceeds S = 0 changes the state and leaves a quantity above S. -/
theorem addItem_zero_stock_cex :
    cartReducer { items := [] } (.addItem zeroStockPayload 3)
      = { items := [{ zeroStockPayload with quantity := some 3 }] }
    ∧ zeroStockPayload.stock = some 0
    ∧ (3 : Int) > 0 := by decide

/-- Counterexample to C3 as stated: the state with one line
`{quantity 1, stock 3}` satisfies the invariant, yet
`UpdateQuantity("a", 5)` yields quantity 5 > stock 3. -/
theorem updateQuantity_invariant_cex :
    cartWF { items := [lowQuantityLine] }
    ∧ cartLineInvariant (cartReducer { items := [lowQuantityLine] } (.updateQuantity "a" 5))
        = false :=
  ⟨⟨by decide, by decide⟩, by decide⟩

/-- C5 (code bug): when both a text query and maxPrice are supplied, the
maxPrice branch overwrites `filter.$or`, discarding the name condition:
the filter for `q = "a", maxPrice = 50` accepts a product named "b"
(which does not contain "a") and coincides with the filter built with no
query at all; the full GET model returns that product. -/
theorem maxPrice_discards_text_query :
    matchesFilter (buildFilter "a" "" (some 50)) cheapDocB = true
    ∧ containsCI cheapDocB.name "a" = false
    ∧ buildFilter "a" "" (some 50) = buildFilter "" "" (some 50)
    ∧ (listProducts [cheapDocB] { q := "a", maxPrice := some 50 }).items = [cheapDocB] := by
  refine ⟨by decide, by decide, by decide, by decide⟩

/-- Counterexample to C6 as stated: a hidden variant's effective price (10)
is not excluded — it becomes the product price instead of the visible
variant's 100. -/
theorem hidden_variant_sets_price_cex :
    (variantAggregator (fun _ => 1) [visibleVariant100, hiddenVariant10] 50).price = 10
    ∧ hiddenVariant10.visible = false
    ∧ effectivePrice hiddenVariant10 = 10
    ∧ effectivePrice visibleVariant100 = 100
    ∧ (variantAggregator (fun _ => 1) [visibleVariant100, hiddenVariant10] 50).price ≠ 100 := by
  decide

/-! ## Aggregation lemmas -/

lemma foldl_min_le_init (xs : List Int) : ∀ x : Int, xs.foldl min x ≤ x := by
  induction xs with
  | nil => intro x; exact le_refl x
  | cons y ys ih =>
    intro x
    calc ys.foldl min (min x y) ≤ min x y := ih (min x y)
      _ ≤ x := min_le_left x y

lemma foldl_min_le_mem (xs : List Int) : ∀ (x a : Int), a ∈ xs → xs.foldl min x ≤ a := by
  induction xs with
  | nil => intro x a ha; cases ha
  | cons y ys ih =>
    intro x a ha
    rcases List.mem_cons.mp ha with rfl | ha
    · calc ys.foldl min (min x a) ≤ min x a := foldl_min_le_init ys (min x a)
        _ ≤ a := min_le_right x a
    · exact ih (min x y) a ha

lemma foldl_min_mem (xs : List Int) :
    ∀ x : Int, xs.foldl min x = x ∨ xs.foldl min x ∈ xs := by
  induction xs with
  | nil => intro x; exact Or.inl rfl
  | cons y ys ih =>
    intro x
    rcases ih (min x y) with h | h
    · rcases min_choice x y with hc | hc
      · exact Or.inl (by rw [List.foldl_cons, h, hc])
      · refine Or.inr ?_
        rw [List.foldl_cons, h, hc]
        exact List.mem_cons_self y ys
    · exact Or.inr (List.mem_cons_of_mem y h)

lemma mathMin_le {l : List Int} {a : Int} (ha : a ∈ l) : mathMin l ≤ a := by
  cases l with
  | nil => cases ha
  | cons x xs =>
    rcases List.mem_cons.mp ha with rfl | ha
    · exact foldl_min_le_init xs a
    · exact foldl_min_le_mem xs x a ha

lemma mathMin_mem {l : List Int} (h : l ≠ []) : mathMin l ∈ l := by
  cases l with
  | nil => exact absurd rfl h
  | cons x xs =>
    simp only [mathMin]
    rcases foldl_min_mem xs x with h1 | h1
    · rw [h1]; exact List.mem_cons_self x xs
    · exact List.mem_cons_of_mem x h1

lemma minArg_eq_effectivePrice (gen : Int) (v : RawVariant) :
    jsOr (processVariant gen v).effective_price (processVariant gen v).price
      = effectivePrice v := by
  unfold processVariant jsOr effectivePrice
  dsimp only
  split_ifs <;> omega

lemma processVariantsAux_minArgs (gen : Nat → Int) (vs : List RawVariant) :
    ∀ i, (processVariantsAux gen i vs).map (fun v => jsOr v.effective_price v.price)
      = vs.map effectivePrice := by
  induction vs with
  | nil => intro i; rfl
  | cons v vs ih => intro i; simp [processVariantsAux, minArg_eq_effectivePrice, ih]

lemma processVariantsAux_stocks (gen : Nat → Int) (vs : List RawVariant) :
    ∀ i, (processVariantsAux gen i vs).map ProcessedVariant.stock_total
      = vs.map RawVariant.stock_total := by
  induction vs with
  | nil => intro i; rfl
  | cons v vs ih => intro i; simp [processVariantsAux, processVariant, ih]

lemma processVariantsAux_length (gen : Nat → Int) (vs : List RawVariant) :
    ∀ i, (processVariantsAux gen i vs).length = vs.length := by
  induction vs with
  | nil => intro i; rfl
  | cons v vs ih => intro i; simp [processVariantsAux, ih]

lemma foldl_add_stock (pvs : List ProcessedVariant) :
    ∀ init : Int, pvs.foldl (fun sum v => sum + jsOr v.stock_total 0) init
      = init + (pvs.map ProcessedVariant.stock_total).sum := by
  induction pvs with
  | nil => intro init; simp
  | cons v vs ih =>
    intro init
    rw [List.foldl_cons, ih (init + jsOr v.stock_total 0), jsOr_zero]
    simp only [List.map_cons, List.sum_cons]
    omega

lemma totalStockOf_eq (gen : Nat → Int) (vs : List RawVariant) :
    totalStockOf (processVariants gen vs) = (vs.map RawVariant.stock_total).sum := by
  unfold totalStockOf processVariants
  rw [foldl_add_stock, processVariantsAux_stocks]
  omega

lemma aggregator_minArgs (gen : Nat → Int) (vs : List RawVariant) :
    (processVariants gen vs).map (fun v => jsOr v.effective_price v.price)
      = vs.map effectivePrice :=
  processVariantsAux_minArgs gen vs 0

lemma aggregator_length_pos (gen : Nat → Int) {vs : List RawVariant} (hne : vs ≠ []) :
    (processVariants gen vs).length > 0 := by
  rw [show (processVariants gen vs).length = vs.length from processVariantsAux_length gen vs 0]
  cases vs with
  | nil => exact absurd rfl hne
  | cons a l => simp

lemma aggPrice_le (gen : Nat → Int) (vs : List RawVariant) (topPrice : Int)
    {v : RawVariant} (hv : v ∈ vs) :
    (variantAggregator gen vs topPrice).price ≤ effectivePrice v := by
  have hne : vs ≠ [] := by
    intro h; subst h; cases hv
  show minPriceOf (processVariants gen vs) topPrice ≤ effectivePrice v
  unfold minPriceOf
  rw [if_pos (aggregator_length_pos gen hne), aggregator_minArgs]
  exact mathMin_le (List.mem_map_of_mem effectivePrice hv)

lemma aggPrice_mem (gen : Nat → Int) {vs : List RawVariant} (topPrice : Int)
    (hne : vs ≠ []) :
    (variantAggregator gen vs topPrice).price ∈ vs.map effectivePrice := by
  show minPriceOf (processVariants gen vs) topPrice ∈ vs.map effectivePrice
  unfold minPriceOf
  rw [if_pos (aggregator_length_pos gen hne), aggregator_minArgs]
  refine mathMin_mem ?_
  cases vs with
  | nil => exact absurd rfl hne
  | cons a l => simp

/-! ## C4: aggregated product fields -/

/-- C4: after aggregation, `price` is the minimum effective price over the
variants (promotional price when positive, else base price), falling back
to the caller-supplied top-level price on an empty list; `stock` is the
sum of the variants' `stock_total` (0 for an empty list); `salePrice`
mirrors `price` and `quantity` mirrors `stock`. -/
theorem aggregator_fields (gen : Nat → Int) (vs : List RawVariant) (topPrice : Int) :
    (vs ≠ [] →
       (variantAggregator gen vs topPrice).price ∈ vs.map effectivePrice
       ∧ ∀ v ∈ vs, (variantAggregator gen vs topPrice).price ≤ effectivePrice v)
    ∧ (vs = [] → (variantAggregator gen vs topPrice).price = topPrice)
    ∧ (variantAggregator gen vs topPrice).stock = (vs.map RawVariant.stock_total).sum
    ∧ (variantAggregator gen vs topPrice).salePrice = (variantAggregator gen vs topPrice).price
    ∧ (variantAggregator gen vs topPrice).quantity = (variantAggregator gen vs topPrice).stock := by
  refine ⟨?_, ?_, totalStockOf_eq gen vs, rfl, rfl⟩
  · intro hne
    exact ⟨aggPrice_mem gen topPrice hne, fun v hv => aggPrice_le gen vs topPrice hv⟩
  · intro h; subst h; rfl

/-- Witness for C4 at the spec's §8 scenario: price 80, stock 5. -/
theorem aggregator_fields_witness :
    scenarioVariants ≠ []
    ∧ (variantAggregator (fun _ => 1) scenarioVariants 999).price
        ∈ scenarioVariants.map effectivePrice
    ∧ (variantAggregator (fun _ => 1) scenarioVariants 999).price = 80
    ∧ (variantAggregator (fun _ => 1) scenarioVariants 999).stock = 5 :=
  ⟨by decide, ((aggregator_fields (fun _ => 1) scenarioVariants 999).1 (by decide)).1,
   by decide, by decide⟩

/-! ## C6 (amended): the minimum ranges over ALL variants -/

/-- C6 (amended): the aggregator's minimum ranges over every variant,
visible or not — an invisible variant's effective price still participates
in (and lower-bounds) the product price. -/
theorem aggregator_includes_hidden_variants (gen : Nat → Int) (vs : List RawVariant)
    (topPrice : Int) (v : RawVariant) (hv : v ∈ vs) (_hvis : v.visible = false) :
    (variantAggregator gen vs topPrice).price ≤ effectivePrice v :=
  aggPrice_le gen vs topPrice hv

/-- Witness for the amended C6 at the concrete hidden-variant input. -/
theorem aggregator_includes_hidden_variants_witness :
    (variantAggregator (fun _ => 1) [visibleVariant100, hiddenVariant10] 50).price
      ≤ effectivePrice hiddenVariant10 :=
  aggregator_includes_hidden_variants (fun _ => 1) [visibleVariant100, hiddenVariant10] 50
    hiddenVariant10 (by decide) (by decide)

/-! ## Decimal rendering is injective (for synthetic cart line ids) -/

lemma decodeDigit_digitChar (n : Nat) (h : n < 10) :
    decodeDigit (Nat.digitChar n) = n := by
  interval_cases n <;> rfl

lemma toDigitsCore_acc (b : Nat) :
    ∀ (f n : Nat) (ds : List Char),
      Nat.toDigitsCore b f n ds = Nat.toDigitsCore b f n [] ++ ds := by
  intro f
  induction f with
  | zero => intro n ds; rfl
  | succ f ih =>
    intro n ds
    by_cases h : n / b = 0
    · simp [Nat.toDigitsCore, h]
    · simp only [Nat.toDigitsCore, if_neg h]
      rw [ih (n / b) (Nat.digitChar (n % b) :: ds), ih (n / b) [Nat.digitChar (n % b)]]
      simp

lemma decodeDigits_append_one (xs : List Char) (c : Char) :
    decodeDigits (xs ++ [c]) = decodeDigits xs * 10 + decodeDigit c := by
  unfold decodeDigits
  rw [List.foldl_append]
  rfl

lemma decodeDigits_toDigitsCore :
    ∀ (f n : Nat), n < f → decodeDigits (Nat.toDigitsCore 10 f n []) = n := by
  intro f
  induction f with
  | zero => intro n h; exact absurd h (Nat.not_lt_zero n)
  | succ f ih =>
    intro n hn
    by_cases h : n / 10 = 0
    · have hn10 : n < 10 := by omega
      simp only [Nat.toDigitsCore, if_pos h]
      have h1 : decodeDigits [Nat.digitChar (n % 10)] = decodeDigit (Nat.digitChar (n % 10)) := by
        simp [decodeDigits]
      rw [h1, decodeDigit_digitChar (n % 10) (Nat.mod_lt n (by norm_num))]
      omega
    · simp only [Nat.toDigitsCore, if_neg h]
      rw [toDigitsCore_acc, decodeDigits_append_one]
      have h1 : n / 10 < f := by
        have h2 : 0 < n := by omega
        have h3 := Nat.div_lt_self h2 (by norm_num : 1 < 10)
        omega
      rw [ih (n / 10) h1, decodeDigit_digitChar (n % 10) (Nat.mod_lt n (by norm_num))]
      omega

lemma natRepr_inj {m n : Nat} (h : Nat.repr m = Nat.repr n) : m = n := by
  have hd : Nat.toDigitsCore 10 (m + 1) m [] = Nat.toDigitsCore 10 (n + 1) n [] :=
    List.asString_inj.mp h
  have hm := decodeDigits_toDigitsCore (m + 1) m (Nat.lt_succ_self m)
  have hn := decodeDigits_toDigitsCore (n + 1) n (Nat.lt_succ_self n)
  rw [hd] at hm
  omega

lemma string_data_inj {a b : String} (h : a.data = b.data) : a = b := by
  cases a; cases b; exact congrArg String.mk h

lemma syntheticId_inj (pid : String) {v₁ v₂ : Nat}
    (h : pid ++ "-" ++ Nat.repr v₁ = pid ++ "-" ++ Nat.repr v₂) : v₁ = v₂ := by
  apply natRepr_inj
  apply string_data_inj
  have h2 := congrArg String.data h
  have ha : ∀ s t : String, (s ++ t).data = s.data ++ t.data := by
    intro s t; cases s; cases t; rfl
  rw [ha, ha, ha, ha] at h2
  exact List.append_cancel_left h2

/-! ## C8: add-to-cart on the product detail view -/

/-- C8: with a selected variant present, stock 0 reports out-of-stock and
does not call the cart store; a quantity above stock reports insufficient
stock; otherwise `addItem` is called with the synthetic line id
`productId-variantId`, and two distinct variant ids on the same product
always yield distinct line ids. -/
theorem handleAddToCart_semantics :
    (∀ (p : ProductView) (i : Nat) (q : Int) (v : VariantView),
       p.variants[i]? = some v →
       ((v.stock_total = 0 → handleAddToCart (some p) i q = .outOfStockToast)
        ∧ (v.stock_total ≠ 0 → q > v.stock_total →
             handleAddToCart (some p) i q = .insufficientStockToast v.stock_total)
        ∧ (v.stock_total ≠ 0 → ¬ q > v.stock_total →
             handleAddToCart (some p) i q
               = .added { id := p.id ++ "-" ++ Nat.repr v.variant_id
                          name := p.name ++ " - Color " ++ Nat.repr (i + 1)
                          price := p.price
                          image := jsOrStr v.image_url "/placeholder.svg"
                          stock := some v.stock_total } q)))
  ∧ (∀ (pid : String) (v₁ v₂ : Nat), v₁ ≠ v₂ →
       pid ++ "-" ++ Nat.repr v₁ ≠ pid ++ "-" ++ Nat.repr v₂) := by
  constructor
  · intro p i q v hv
    refine ⟨?_, ?_, ?_⟩
    · intro h0
      simp [handleAddToCart, hv, jsOr_zero, h0]
    · intro h0 hgt
      simp [handleAddToCart, hv, jsOr_zero, h0, hgt]
    · intro h0 hgt
      simp [handleAddToCart, hv, jsOr_zero, h0, hgt]
  · intro pid v₁ v₂ hne h
    exact hne (syntheticId_inj pid h)

/-- Witness for C8: variant 11 of the sample product with stock 4 and
quantity 2 is added under id "p-11", and ids for variants 11 and 12
differ. -/
theorem handleAddToCart_semantics_witness :
    handleAddToCart (some sampleProductView) 0 2
      = .added { id := "p" ++ "-" ++ Nat.repr 11, name := "P" ++ " - Color " ++ Nat.repr 1,
                 price := 100, image := jsOrStr "" "/placeholder.svg", stock := some 4 } 2
    ∧ "p" ++ "-" ++ Nat.repr 11 ≠ "p" ++ "-" ++ Nat.repr 12 := by
  constructor
  · exact (handleAddToCart_semantics.1 sampleProductView 0 2
      { variant_id := 11, stock_total := 4, image_url := "" } rfl).2.2 (by decide) (by decide)
  · exact handleAddToCart_semantics.2 "p" 11 12 (by decide)

/-! ## Cart reducer preservation lemmas -/

lemma find_beq_eq {l : List CartItem} {pid : String} {e : CartItem}
    (h : l.find? (fun item => item.id == pid) = some e) : e ∈ l ∧ e.id = pid := by
  refine ⟨List.mem_of_find?_eq_some h, ?_⟩
  have h2 := List.find?_some h
  simpa using h2

lemma cartLineInvariant_iff (s : CartState) :
    cartLineInvariant s = true ↔
      ∀ item ∈ s.items,
        (truthy item.stock = true → item.quantity.getD 0 ≤ item.stock.getD 0)
        ∧ 0 < item.quantity.getD 0 := by
  simp only [cartLineInvariant, List.all_eq_true, Bool.and_eq_true, Bool.or_eq_true,
    Bool.not_eq_true', decide_eq_true_eq]
  constructor
  · intro h item hmem
    obtain ⟨h1, h2⟩ := h item hmem
    refine ⟨fun ht => ?_, h2⟩
    rcases h1 with h1 | h1
    · rw [ht] at h1; cases h1
    · exact h1
  · intro h item hmem
    obtain ⟨h1, h2⟩ := h item hmem
    refine ⟨?_, h2⟩
    cases ht : truthy item.stock
    · exact Or.inl rfl
    · exact Or.inr (h1 ht)

lemma ids_update_map (items : List CartItem) (pid : String) (n : Int) :
    ((items.map (fun item =>
        if item.id == pid then { item with quantity := some n } else item)).map CartItem.id)
      = items.map CartItem.id := by
  induction items with
  | nil => rfl
  | cons x xs ih =>
    by_cases h : (x.id == pid) = true
    · simp only [List.map_cons, if_pos h, ih]
    · simp only [List.map_cons, if_neg h, ih]

lemma nodup_id_inj {items : List CartItem} (hnd : (items.map CartItem.id).Nodup)
    {a b : CartItem} (ha : a ∈ items) (hb : b ∈ items) (hid : a.id = b.id) : a = b :=
  List.inj_on_of_nodup_map hnd ha hb hid

lemma addItem_preserves_stock_bound {id : String} {S : Int} (hS : S ≠ 0)
    (s : CartState) (p : CartItem) (q : Int)
    (hp : p.id = id → p.stock = some S)
    (hs : ∀ item ∈ s.items, item.id = id → item.stock = some S ∧ item.quantity.getD 0 ≤ S) :
    ∀ item ∈ (cartReducer s (.addItem p q)).items, item.id = id →
      item.stock = some S ∧ item.quantity.getD 0 ≤ S := by
  cases hfind : s.items.find? (fun item => item.id == p.id) with
  | some e =>
    obtain ⟨he, heid⟩ := find_beq_eq hfind
    by_cases hguard :
        (truthy e.stock && decide (e.quantity.getD 0 + q > e.stock.getD 0)) = true
    · intro item hitem hid
      have hres : cartReducer s (.addItem p q) = s := by
        simp [cartReducer, hfind, hguard]
      rw [hres] at hitem
      exact hs item hitem hid
    · have hres : (cartReducer s (.addItem p q)).items
          = s.items.map (fun item =>
              if item.id == p.id then { item with quantity := some (e.quantity.getD 0 + q) }
              else item) := by
        simp [cartReducer, hfind, hguard]
      intro item hitem hid
      rw [hres] at hitem
      obtain ⟨it0, hit0, rfl⟩ := List.mem_map.mp hitem
      by_cases hcase : (it0.id == p.id) = true
      · rw [if_pos hcase] at hid ⊢
        have hid0 : it0.id = id := hid
        have hceq : it0.id = p.id := by simpa using hcase
        have hpid : p.id = id := hceq ▸ hid0
        obtain ⟨hst1, _⟩ := hs it0 hit0 hid0
        obtain ⟨hst2, hle2⟩ := hs e he (heid.trans hpid)
        refine ⟨hst1, ?_⟩
        show e.quantity.getD 0 + q ≤ S
        have htr : truthy e.stock = true := by rw [hst2]; simp [truthy, hS]
        have hgt : ¬ e.quantity.getD 0 + q > e.stock.getD 0 := by
          intro hc
          exact hguard (by simp [htr, hc])
        rw [hst2] at hgt
        simp only [Option.getD_some] at hgt
        omega
      · rw [if_neg hcase] at hid ⊢
        exact hs it0 hit0 hid
  | none =>
    by_cases hguard : (truthy p.stock && decide (q > p.stock.getD 0)) = true
    · intro item hitem hid
      have hres : cartReducer s (.addItem p q) = s := by
        simp [cartReducer, hfind, hguard]
      rw [hres] at hitem
      exact hs item hitem hid
    · have hres : (cartReducer s (.addItem p q)).items
          = s.items ++ [{ p with quantity := some q }] := by
        simp [cartReducer, hfind, hguard]
      intro item hitem hid
      rw [hres] at hitem
      rcases List.mem_append.mp hitem with h | h
      · exact hs item h hid
      · have hitem2 : item = { p with quantity := some q } := by simpa using h
        subst hitem2
        have hpid : p.id = id := hid
        have hstock : p.stock = some S := hp hpid
        refine ⟨hstock, ?_⟩
        show q ≤ S
        have htr : truthy p.stock = true := by rw [hstock]; simp [truthy, hS]
        have hgt : ¬ q > p.stock.getD 0 := by
          intro hc
          exact hguard (by simp [htr, hc])
        rw [hstock] at hgt
        simp only [Option.getD_some] at hgt
        omega

/-! ## C1 (amended): AddItem respects a non-zero stock bound -/

/-- C1 (amended): for a truthy (defined, non-zero) stock S, any sequence
of AddItem actions keeps each line with that id at quantity ≤ S provided
the state starts within the bound, and a single AddItem whose new quantity
would exceed S returns the state unchanged.  (For a defined stock of 0 the
guard is falsy and the bound fails — see the counterexample.) -/
theorem addItem_stock_bound :
    (∀ (id : String) (S : Int), S ≠ 0 →
       ∀ actions : List CartAction,
         (∀ a ∈ actions, ∃ p q, a = CartAction.addItem p q ∧ (p.id = id → p.stock = some S)) →
         ∀ s : CartState,
           (∀ item ∈ s.items, item.id = id →
              item.stock = some S ∧ item.quantity.getD 0 ≤ S) →
           ∀ item ∈ (actions.foldl cartReducer s).items, item.id = id →
             item.stock = some S ∧ item.quantity.getD 0 ≤ S)
  ∧ (∀ (s : CartState) (p : CartItem) (q S : Int) (e : CartItem), S ≠ 0 →
       s.items.find? (fun item => item.id == p.id) = some e →
       e.stock = some S → e.quantity.getD 0 + q > S →
       cartReducer s (.addItem p q) = s)
  ∧ (∀ (s : CartState) (p : CartItem) (q S : Int), S ≠ 0 →
       s.items.find? (fun item => item.id == p.id) = none →
       p.stock = some S → q > S →
       cartReducer s (.addItem p q) = s) := by
  refine ⟨?_, ?_, ?_⟩
  · intro id S hS actions
    induction actions with
    | nil => intro _ s hs; simpa using hs
    | cons a rest ih =>
      intro hacts s hs
      obtain ⟨p, q, rfl, hp⟩ := hacts a (List.mem_cons_self a rest)
      rw [List.foldl_cons]
      exact ih (fun a' ha' => hacts a' (List.mem_cons_of_mem _ ha'))
        (cartReducer s (.addItem p q))
        (addItem_preserves_stock_bound hS s p q hp hs)
  · intro s p q S e hS hfind hstock hgt
    have htr : truthy e.stock = true := by rw [hstock]; simp [truthy, hS]
    have hgetD : e.stock.getD 0 = S := by rw [hstock]; rfl
    have hg : (truthy e.stock && decide (e.quantity.getD 0 + q > e.stock.getD 0)) = true := by
      rw [htr, hgetD]
      simpa using hgt
    simp [cartReducer, hfind, hg]
  · intro s p q S hS hfind hstock hgt
    have htr : truthy p.stock = true := by rw [hstock]; simp [truthy, hS]
    have hgetD : p.stock.getD 0 = S := by rw [hstock]; rfl
    have hg : (truthy p.stock && decide (q > p.stock.getD 0)) = true := by
      rw [htr, hgetD]
      simpa using hgt
    simp [cartReducer, hfind, hg]

/-- Witness for C1 (amended): starting from the empty cart and adding 2 of
a line with stock 3, the line ends with stock 3 and quantity ≤ 3. -/
theorem addItem_stock_bound_witness :
    ({ lowQuantityLine with quantity := some 2 } : CartItem).stock = some 3
    ∧ ({ lowQuantityLine with quantity := some 2 } : CartItem).quantity.getD 0 ≤ 3 := by
  refine addItem_stock_bound.1 "a" 3 (by decide) [.addItem lowQuantityLine 2]
    ?_ { items := [] } ?_ { lowQuantityLine with quantity := some 2 } ?_ rfl
  · intro a ha
    rw [List.mem_singleton] at ha
    subst ha
    exact ⟨lowQuantityLine, 2, rfl, fun _ => rfl⟩
  · intro item h
    cases h
  · decide

/-! ## C3 (amended): invariant preservation by the reducer -/

lemma update_map_wf (items : List CartItem) (pid : String) (q : Int) (hq : 0 < q)
    (hnd : (items.map CartItem.id).Nodup)
    (hpos : ∀ item ∈ items, 0 < item.quantity.getD 0) :
    (((items.map (fun item =>
        if item.id == pid then { item with quantity := some q } else item)).map
          CartItem.id).Nodup)
    ∧ ∀ item ∈ items.map (fun item =>
        if item.id == pid then { item with quantity := some q } else item),
        0 < item.quantity.getD 0 := by
  constructor
  · rw [ids_update_map]; exact hnd
  · intro item hitem
    obtain ⟨it0, hit0, rfl⟩ := List.mem_map.mp hitem
    by_cases hcase : (it0.id == pid) = true
    · rw [if_pos hcase]; simpa using hq
    · rw [if_neg hcase]; exact hpos it0 hit0

lemma addItem_preserves_wf (s : CartState) (p : CartItem) (q : Int) (hq : 0 < q)
    (hwf : cartWF s) : cartWF (cartReducer s (.addItem p q)) := by
  obtain ⟨hnd, hinv⟩ := hwf
  rw [cartLineInvariant_iff] at hinv
  cases hfind : s.items.find? (fun item => item.id == p.id) with
  | some e =>
    obtain ⟨he, heid⟩ := find_beq_eq hfind
    by_cases hguard :
        (truthy e.stock && decide (e.quantity.getD 0 + q > e.stock.getD 0)) = true
    · have hres : cartReducer s (.addItem p q) = s := by
        simp [cartReducer, hfind, hguard]
      rw [hres]
      exact ⟨hnd, (cartLineInvariant_iff s).mpr hinv⟩
    · have hres : (cartReducer s (.addItem p q)).items
          = s.items.map (fun item =>
              if item.id == p.id then { item with quantity := some (e.quantity.getD 0 + q) }
              else item) := by
        simp [cartReducer, hfind, hguard]
      refine ⟨?_, ?_⟩
      · rw [hres, ids_update_map]; exact hnd
      · rw [cartLineInvariant_iff]
        intro item hitem
        rw [hres] at hitem
        obtain ⟨it0, hit0, rfl⟩ := List.mem_map.mp hitem
        by_cases hcase : (it0.id == p.id) = true
        · rw [if_pos hcase]
          have hit0e : it0 = e := by
            refine nodup_id_inj hnd hit0 he ?_
            have h1 : it0.id = p.id := by simpa using hcase
            rw [h1, heid]
          subst hit0e
          obtain ⟨hst, hpos⟩ := hinv it0 hit0
          constructor
          · intro ht
            have hgt : ¬ it0.quantity.getD 0 + q > it0.stock.getD 0 := by
              intro hc
              exact hguard (by simp [ht, hc])
            show it0.quantity.getD 0 + q ≤ it0.stock.getD 0
            omega
          · show 0 < it0.quantity.getD 0 + q
            have := hpos
            omega
        · rw [if_neg hcase]
          exact hinv it0 hit0
  | none =>
    by_cases hguard : (truthy p.stock && decide (q > p.stock.getD 0)) = true
    · have hres : cartReducer s (.addItem p q) = s := by
        simp [cartReducer, hfind, hguard]
      rw [hres]
      exact ⟨hnd, (cartLineInvariant_iff s).mpr hinv⟩
    · have hres : (cartReducer s (.addItem p q)).items
          = s.items ++ [{ p with quantity := some q }] := by
        simp [cartReducer, hfind, hguard]
      have hnotin : p.id ∉ s.items.map CartItem.id := by
        intro hmem
        obtain ⟨it0, hit0, hid0⟩ := List.mem_map.mp hmem
        have hne := List.find?_eq_none.mp hfind it0 hit0
        exact hne (by simp [hid0])
      refine ⟨?_, ?_⟩
      · rw [hres, List.map_append]
        simp only [List.map_cons, List.map_nil]
        rw [List.nodup_append]
        refine ⟨hnd, List.nodup_singleton _, ?_⟩
        intro a ha hb
        have hb2 : a = p.id := by simpa using hb
        subst hb2
        exact hnotin ha
      · rw [cartLineInvariant_iff]
        intro item hitem
        rw [hres] at hitem
        rcases List.mem_append.mp hitem with h | h
        · exact hinv item h
        · have hitem2 : item = { p with quantity := some q } := by simpa using h
          subst hitem2
          constructor
          · intro ht
            have hgt : ¬ q > p.stock.getD 0 := by
              intro hc
              exact hguard (by simp [ht, hc])
            show q ≤ p.stock.getD 0
            omega
          · simpa using hq

lemma removeItem_preserves_wf (s : CartState) (pid : String) (hwf : cartWF s) :
    cartWF (cartReducer s (.removeItem pid)) := by
  obtain ⟨hnd, hinv⟩ := hwf
  rw [cartLineInvariant_iff] at hinv
  refine ⟨?_, ?_⟩
  · show (((s.items.filter fun item => item.id != pid).map CartItem.id)).Nodup
    exact List.Nodup.sublist (List.Sublist.map CartItem.id (List.filter_sublist _)) hnd
  · rw [cartLineInvariant_iff]
    intro item hitem
    exact hinv item (List.mem_of_mem_filter hitem)

lemma updateQuantity_partial_wf (s : CartState) (pid : String) (q : Int) (hwf : cartWF s) :
    (((cartReducer s (.updateQuantity pid q)).items.map CartItem.id).Nodup)
    ∧ ∀ item ∈ (cartReducer s (.updateQuantity pid q)).items, 0 < item.quantity.getD 0 := by
  obtain ⟨hnd, hinv⟩ := hwf
  rw [cartLineInvariant_iff] at hinv
  have hpos : ∀ item ∈ s.items, 0 < item.quantity.getD 0 := fun item h => (hinv item h).2
  by_cases hq : q ≤ 0
  · have hres : (cartReducer s (.updateQuantity pid q)).items
        = s.items.filter (fun item => item.id != pid) := by
      simp [cartReducer, hq]
    rw [hres]
    refine ⟨?_, ?_⟩
    · exact List.Nodup.sublist (List.Sublist.map CartItem.id (List.filter_sublist _)) hnd
    · intro item hitem
      exact hpos item (List.mem_of_mem_filter hitem)
  · have hq' : 0 < q := by omega
    cases hfind : s.items.find? (fun item => item.id == pid) with
    | none =>
      have hres : cartReducer s (.updateQuantity pid q) = s := by
        simp [cartReducer, hq, hfind]
      rw [hres]
      exact ⟨hnd, hpos⟩
    | some e =>
      by_cases h2 : q < e.quantity.getD 0
      · have hres : (cartReducer s (.updateQuantity pid q)).items
            = s.items.map (fun item =>
                if item.id == pid then { item with quantity := some q } else item) := by
          simp [cartReducer, hq, hfind, h2]
        rw [hres]
        exact update_map_wf s.items pid q hq' hnd hpos
      · by_cases h3 : truthy e.stock = true ∧ e.quantity.getD 0 < e.stock.getD 0
        · have hres : (cartReducer s (.updateQuantity pid q)).items
              = s.items.map (fun item =>
                  if item.id == pid then { item with quantity := some q } else item) := by
            simp [cartReducer, hq, hfind, h2, h3.1, h3.2]
          rw [hres]
          exact update_map_wf s.items pid q hq' hnd hpos
        · have hres : cartReducer s (.updateQuantity pid q) = s := by
            cases ht : truthy e.stock with
            | false => simp [cartReducer, hq, hfind, h2, ht]
            | true =>
              have h4 : ¬ e.quantity.getD 0 < e.stock.getD 0 := fun hc => h3 ⟨ht, hc⟩
              simp [cartReducer, hq, hfind, h2, ht, h4]
          rw [hres]
          exact ⟨hnd, hpos⟩

/-- C3 (amended): on a well-formed cart (unique ids, quantity ≤ truthy
stock, positive quantities), AddItem with positive quantityToAdd,
RemoveItem and ClearCart preserve the full invariant; UpdateQuantity
preserves id uniqueness and quantity positivity, but not the stock bound
(see the counterexample). -/
theorem cart_invariant_preservation :
    (∀ (s : CartState) (p : CartItem) (q : Int), 0 < q → cartWF s →
       cartWF (cartReducer s (.addItem p q)))
  ∧ (∀ (s : CartState) (pid : String), cartWF s → cartWF (cartReducer s (.removeItem pid)))
  ∧ (∀ s : CartState, cartWF (cartReducer s .clearCart))
  ∧ (∀ (s : CartState) (pid : String) (q : Int), cartWF s →
       (((cartReducer s (.updateQuantity pid q)).items.map CartItem.id).Nodup)
       ∧ ∀ item ∈ (cartReducer s (.updateQuantity pid q)).items,
           0 < item.quantity.getD 0) := by
  refine ⟨addItem_preserves_wf, removeItem_preserves_wf, ?_, updateQuantity_partial_wf⟩
  intro s
  exact ⟨by simp [cartReducer], by rfl⟩

/-- Witness for C3 (amended) at a concrete well-formed one-line cart. -/
theorem cart_invariant_preservation_witness :
    cartWF (cartReducer { items := [lowQuantityLine] } (.addItem lowQuantityLine 1)) :=
  cart_invariant_preservation.1 { items := [lowQuantityLine] } lowQuantityLine 1
    (by decide) ⟨by decide, by decide⟩

end ClubCapelli
